import Mathlib

/-!
Verification of the PUBG Discord match-tracking bot.

The development shallowly embeds the core logic of the repository:

* `tracker.py`  — `AsyncPUBGMatchTracker`: HTTP retry loop
  (`make_request_with_retry`), per-cycle match discovery and deduplication
  (`get_latest_match`, `get_match_details`), match categorisation
  (`determine_match_category`) and participant-stats lookup
  (`find_player_stats`).
* `bot.py`      — `IntegratedPUBGBot`: posted-matches ledger persistence
  (`save_posted_matches`), the publish step (`post_matches_to_discord`),
  the polling cycle driver (`check_matches_loop`) and the `!addplayer`
  command handler (`add_player`).
* `weekly_stats.py` — `WeeklyStatsManager.calculate_weekly_best`: the
  weekly aggregation and scoring engine.

Conventions of the embedding:

* Strings are Lean `String`; Python `s.lower()` / `s.upper()` are
  `pyLower` / `pyUpper` (ASCII case mapping; all category keywords and
  player names the code compares are ASCII).
* Python `sub in s` (substring test) is `pyStrIn`.
* Python dicts that the code only extends and looks up are association
  lists (`List (String × β)`) in insertion order; Python `set`s are lists
  of distinct elements, and where the code *iterates* a set
  (`list(self.posted_matches)`) the unspecified iteration order is taken
  as an explicit parameter constrained to be a permutation of the
  elements.
* Python floats are modelled as rationals; `round(x, n)` is round to
  `n` decimal places (`pyRound2`, `pyRound1`).  Mathlib `round` rounds
  half away from floor while CPython rounds half to even over binary
  floats; no statement proved here evaluates `round` at a tie.
* Network I/O is modelled by explicit response streams; `None` returns
  by `Option.none`; exceptions that a function catches and converts to a
  logged `None`/skip are modelled by the corresponding `none` branch.
-/

/-! ### String helpers (Python `in`, `lower`, `upper`) -/

/-- Does the character list `needle` occur at the head of `hay`? -/
def charsStartWith : List Char → List Char → Bool
  | [], _ => true
  | _ :: _, [] => false
  | a :: as, b :: bs => a == b && charsStartWith as bs

/-- Substring test on character lists: does `needle` occur contiguously in
`hay`?  This is Python's `needle in hay` on strings. -/
def charsContain (needle : List Char) : List Char → Bool
  | [] => needle.isEmpty
  | b :: bs => charsStartWith needle (b :: bs) || charsContain needle bs

/-- Python `needle in hay` for `String`s. -/
def pyStrIn (needle hay : String) : Bool :=
  charsContain needle.data hay.data

/-- ASCII lower-casing of one character (the case mapping Python's
`str.lower` performs on the ASCII strings this code compares). -/
def asciiLowerChar (c : Char) : Char :=
  if 'A' ≤ c ∧ c ≤ 'Z' then Char.ofNat (c.toNat + 32) else c

/-- ASCII upper-casing of one character. -/
def asciiUpperChar (c : Char) : Char :=
  if 'a' ≤ c ∧ c ≤ 'z' then Char.ofNat (c.toNat - 32) else c

/-- Python `s.lower()`. -/
def pyLower (s : String) : String :=
  String.mk (s.data.map asciiLowerChar)

/-- Python `s.upper()`. -/
def pyUpper (s : String) : String :=
  String.mk (s.data.map asciiUpperChar)

/-! ### `tracker.py` — `determine_match_category` (lines 218–270) -/

/-- `tracker.py` line 249: the arcade keyword list. -/
def arcade_keywords : List String :=
  ["war", "zombie", "training", "tdm", "conquest", "intense",
   "esports", "event", "lab", "arcade", "ibr", "battleroyal"]

/-- `tracker.py` line 259: the normal game modes. -/
def normal_modes : List String :=
  ["solo", "solo-fpp", "duo", "duo-fpp", "squad", "squad-fpp"]

/-- `tracker.py` lines 218–270, `AsyncPUBGMatchTracker.determine_match_category`:
custom → CUSTOM; competitive/ranked match type → RANKED; airoyale match
type → CASUAL; arcade keyword in game mode → ARCADE; normal mode with
official/seasonal type → NORMAL, otherwise ARCADE; anything else →
`UNKNOWN (<game_mode>)`. -/
def determine_match_category (game_mode match_type : String) (is_custom : Bool) :
    String :=
  if is_custom then "CUSTOM"
  else
    let game_mode_lower := pyLower game_mode
    let match_type_lower := pyLower match_type
    if pyStrIn "competitive" match_type_lower || pyStrIn "ranked" match_type_lower then
      "RANKED"
    else if pyStrIn "airoyale" match_type_lower then
      "CASUAL"
    else if arcade_keywords.any (fun keyword => pyStrIn keyword game_mode_lower) then
      "ARCADE"
    else if normal_modes.contains game_mode_lower then
      if match_type_lower == "official" || match_type_lower == "seasonal" then
        "NORMAL"
      else
        "ARCADE"
    else
      "UNKNOWN (" ++ game_mode ++ ")"

/-! ### C5 — point equations of `determine_match_category` -/

/-- C5 counterexample: the claim asserts
`determineCategory("team-deathmatch", "official", false) == ARCADE`, but
the code yields `UNKNOWN (team-deathmatch)`: no arcade keyword (in
particular not `tdm`) occurs in the string `team-deathmatch`, and it is
not a normal mode, so the final fallback fires. -/
theorem determine_match_category_team_deathmatch_not_arcade :
    determine_match_category "team-deathmatch" "official" false
        = "UNKNOWN (team-deathmatch)" ∧
      determine_match_category "team-deathmatch" "official" false ≠ "ARCADE" := by
  constructor <;> decide

/-- C5 (amended): `determineCategory("solo", "official", false) == NORMAL`;
`determineCategory(gm, mt, true) == CUSTOM` for every game mode and match
type; and the team-deathmatch arcade mode — whose game-mode string in the
remote API is `tdm` — satisfies
`determineCategory("tdm", "official", false) == ARCADE`, while the literal
string `team-deathmatch` falls to `UNKNOWN (team-deathmatch)`. -/
theorem determine_match_category_point_equations :
    determine_match_category "solo" "official" false = "NORMAL" ∧
      (∀ game_mode match_type : String,
        determine_match_category game_mode match_type true = "CUSTOM") ∧
      determine_match_category "tdm" "official" false = "ARCADE" ∧
      determine_match_category "team-deathmatch" "official" false
        = "UNKNOWN (team-deathmatch)" := by
  refine ⟨by decide, fun gm mt => rfl, by decide, by decide⟩

/-! ### `tracker.py` — `make_request_with_retry` (lines 57–95)

The HTTP layer is modelled by a stream of responses, one per issued
request: `responses i` is what the `i`-th `session.get` of this call
returns.  `nows i` is `datetime.now().timestamp()` observed while
handling the `i`-th response.  The function returns the payload (or
`none`, as the source returns `None`) together with the list of sleeps
(`await asyncio.sleep(...)` durations, in seconds) it performed. -/

/-- One HTTP response as seen by `make_request_with_retry`:
a 429 with the optional `X-RateLimit-Reset` header, a success with a JSON
body, an `aiohttp.ClientError` (also what `raise_for_status` raises on a
non-2xx status), or any other exception. -/
inductive ApiResp (α : Type) where
  | rate429 (resetHint : Option Int)
  | ok (body : α)
  | clientErr
  | unexpectedErr
deriving DecidableEq, Repr

/-- `tracker.py` lines 68–74: the imposed wait on a 429 — with a reset
hint, `max(reset − now + 2, 60)`; without one, 60 seconds. -/
def wait429 (now : Int) (resetHint : Option Int) : Int :=
  match resetHint with
  | some reset_time => max (reset_time - now + 2) 60
  | none => 60

/-- `tracker.py` lines 60–95, the body of the
`for attempt in range(self.max_retries)` loop, from loop index `attempt`
on, with `fuel = max_retries - attempt` iterations left:

* 429 → sleep `wait429`, `continue` (the next loop iteration);
* success → return the body;
* `ClientError` → if `attempt == max_retries - 1` return `None`, else
  sleep `(attempt + 1) * 5` and retry;
* any other exception → return `None`;
* loop exhausted → return `None` (line 95). -/
def retryLoop {α : Type} (responses : Nat → ApiResp α) (nows : Nat → Int)
    (max_retries : Nat) : Nat → Nat → Option α × List Int
  | _, 0 => (none, [])
  | attempt, fuel + 1 =>
    match responses attempt with
    | .ok body => (some body, [])
    | .unexpectedErr => (none, [])
    | .rate429 resetHint =>
      let wait_time := wait429 (nows attempt) resetHint
      let rest := retryLoop responses nows max_retries (attempt + 1) fuel
      (rest.1, wait_time :: rest.2)
    | .clientErr =>
      if attempt == max_retries - 1 then (none, [])
      else
        let wait_time : Int := (attempt + 1) * 5
        let rest := retryLoop responses nows max_retries (attempt + 1) fuel
        (rest.1, wait_time :: rest.2)

/-- `tracker.py` lines 57–95, `AsyncPUBGMatchTracker.make_request_with_retry`:
run the retry loop from attempt 0. -/
def make_request_with_retry {α : Type} (responses : Nat → ApiResp α)
    (nows : Nat → Int) (max_retries : Nat) : Option α × List Int :=
  retryLoop responses nows max_retries 0 max_retries

/-- Helper: a stream of nothing but 429 responses drives the result to
`None` — every 429 `continue` advances the `for` loop index, so the loop
exhausts. -/
theorem retryLoop_all_rate429_none {α : Type} (responses : Nat → ApiResp α)
    (nows : Nat → Int) (max_retries : Nat)
    (hall : ∀ i, ∃ hint, responses i = .rate429 hint) :
    ∀ fuel attempt, (retryLoop responses nows max_retries attempt fuel).1 = none := by
  intro fuel
  induction fuel with
  | zero => intro attempt; rfl
  | succ fuel ih =>
    intro attempt
    obtain ⟨hint, hresp⟩ := hall attempt
    simp [retryLoop, hresp, ih]

/-! ### C3 — behaviour on HTTP 429 -/

/-- C3 counterexample: the claim says a 429 is never counted toward
max-retries exhaustion, so no run of consecutive 429s can make the call
fail.  In fact each 429 `continue` consumes a loop iteration of
`for attempt in range(self.max_retries)`: with the default
`max_retries = 3`, three consecutive 429s exhaust the loop and the call
returns `None` — even though a success was waiting as the fourth
response. -/
theorem make_request_with_retry_429_exhaustion :
    make_request_with_retry
        (fun i => if i < 3 then ApiResp.rate429 none else ApiResp.ok 42)
        (fun _ => 0) 3
      = (none, [60, 60, 60]) := by
  decide

/-- C3 (amended): a 429 is retried after the imposed wait — with a reset
hint the wait is `max(reset − now + 2, 60)`, without one it is 60 seconds
— and when at least one loop attempt remains the very same request is
reissued (here: a 429 followed by a success yields the success, after
exactly that one wait).  But the retry consumes an attempt: a stream of
nothing but 429 responses exhausts `max_retries` and the call fails with
`None`. -/
theorem make_request_with_retry_429_behavior {α : Type}
    (resetHint : Option Int) (now : Int) (nows : Nat → Int) (body : α)
    (max_retries : Nat) (hmax : 2 ≤ max_retries) :
    (make_request_with_retry
        (fun i => if i = 0 then ApiResp.rate429 resetHint else ApiResp.ok body)
        (fun i => if i = 0 then now else nows i) max_retries
      = (some body, [wait429 now resetHint])) ∧
    (∀ hints : Nat → Option Int,
      (@make_request_with_retry α (fun i => ApiResp.rate429 (hints i)) nows
          max_retries).1 = none) ∧
    wait429 now (some (now + 100)) = 102 ∧ wait429 now (some (now + 10)) = 60 ∧
    wait429 now none = 60 := by
  refine ⟨?_, ?_, ?_, ?_, rfl⟩
  · obtain ⟨k, rfl⟩ : ∃ k, max_retries = k + 2 :=
      ⟨max_retries - 2, by omega⟩
    simp [make_request_with_retry, retryLoop]
  · intro hints
    exact retryLoop_all_rate429_none _ _ _ (fun i => ⟨hints i, rfl⟩) _ _
  · simp [wait429]
  · simp [wait429]

/-- C3 witness: the amended theorem applied at `max_retries = 3`, a reset
hint 100 seconds ahead of `now = 1000`, and payload `0`. -/
theorem make_request_with_retry_429_behavior_witness :
    (make_request_with_retry
        (fun i => if i = 0 then ApiResp.rate429 (some 1100) else ApiResp.ok 0)
        (fun i => if i = 0 then 1000 else 0) 3
      = (some 0, [102])) ∧
    (@make_request_with_retry Nat (fun _ => ApiResp.rate429 none)
        (fun _ => (0 : Int)) 3).1 = none := by
  have h := @make_request_with_retry_429_behavior Nat (some 1100) 1000
    (fun _ => 0) 0 3 (by norm_num)
  refine ⟨?_, h.2.1 (fun _ => none)⟩
  have h1 := h.1
  simpa [wait429] using h1

/-! ### `bot.py` — `save_posted_matches` (lines 241–249)

`self.posted_matches` is a Python `set`.  `list(self.posted_matches)`
enumerates it in an order the language does not specify; the embedding
takes that enumeration as an explicit list `enum`, constrained in the
theorems to be a permutation of the ids held by the set. -/

/-- Python `lst[-n:]`: the last `n` elements (the whole list when
`n = 0`, since `lst[-0:]` is `lst[0:]`). -/
def pySliceLast {α : Type} (n : Nat) (l : List α) : List α :=
  if n = 0 then l else l.drop (l.length - n)

/-- `bot.py` lines 241–249, `IntegratedPUBGBot.save_posted_matches`:
`matches_list = list(self.posted_matches)[-max_history:]` — the last
`max_history` entries of the set's enumeration `enum` — is what gets
written to `posted_matches.json` (and becomes the new in-memory set). -/
def save_posted_matches (enum : List String) (max_history : Nat) : List String :=
  pySliceLast max_history enum

/-! ### C2 — ledger truncation -/

/-- C2 counterexample: the claim says truncation keeps exactly the
`N` most-recently-inserted ids (oldest evicted first).  But the ledger is
a Python `set`, and `list(set)` does not enumerate in insertion order.
With ids inserted in the order `a, b, c`, the enumeration `[c, b, a]` is
a legal set enumeration (a permutation of the elements), and truncating
it to `N = 2` persists `[b, a]`: the oldest id `a` is kept and the newest
id `c` is evicted — the opposite of the claimed recency order. -/
theorem save_posted_matches_not_insertion_order :
    List.Perm ["c", "b", "a"] ["a", "b", "c"] ∧
      save_posted_matches ["c", "b", "a"] 2 = ["b", "a"] ∧
      "a" ∈ save_posted_matches ["c", "b", "a"] 2 ∧
      "c" ∉ save_posted_matches ["c", "b", "a"] 2 ∧
      pySliceLast 2 ["a", "b", "c"] = ["b", "c"] := by
  refine ⟨by decide, by decide, by decide, by decide, by decide⟩

/-- C2 (amended): persisting a ledger holding more than `N` ids keeps the
last `N` entries of the set's *unspecified enumeration order*, not the
`N` most-recently-inserted ids: the persisted list is a contiguous suffix
of the enumeration, has length `min N (number of ids)`, and every
persisted id is one of the ids the set held — but which ids survive
depends on the enumeration, and insertion order plays no part. -/
theorem save_posted_matches_truncation (enum inserted : List String)
    (max_history : Nat) (hmax : max_history ≠ 0)
    (hperm : List.Perm enum inserted) :
    save_posted_matches enum max_history <:+ enum ∧
      (save_posted_matches enum max_history).length
        = min max_history enum.length ∧
      ∀ x ∈ save_posted_matches enum max_history, x ∈ inserted := by
  refine ⟨?_, ?_, ?_⟩
  · simp only [save_posted_matches, pySliceLast, if_neg hmax]
    exact List.drop_suffix _ _
  · simp only [save_posted_matches, pySliceLast, if_neg hmax, List.length_drop]
    omega
  · intro x hx
    have hx' : x ∈ enum := by
      have hsuffix : save_posted_matches enum max_history <:+ enum := by
        simp only [save_posted_matches, pySliceLast, if_neg hmax]
        exact List.drop_suffix _ _
      exact hsuffix.subset hx
    exact (hperm.mem_iff).mp hx'

/-- C2 witness: the amended truncation theorem at the enumeration
`[x, y, z]` of the three inserted ids, retention limit 2. -/
theorem save_posted_matches_truncation_witness :
    save_posted_matches ["x", "y", "z"] 2 <:+ ["x", "y", "z"] ∧
      (save_posted_matches ["x", "y", "z"] 2).length = min 2 3 ∧
      ∀ w ∈ save_posted_matches ["x", "y", "z"] 2, w ∈ ["z", "x", "y"] := by
  have h := save_posted_matches_truncation ["x", "y", "z"] ["z", "x", "y"] 2
    (by decide) (by decide)
  simpa using h

/-! ### `bot.py` — the `!addplayer` command (lines 58–88) -/

/-- The replies `add_player` can send back to the channel. -/
inductive AddPlayerReply where
  | notAdmin
  | alreadyTracked
  | added (total : Nat)
  | saveError
deriving DecidableEq, Repr

/-- `bot.py` lines 58–88, the `!addplayer` command handler:
non-administrators are rejected; a name equal (case-insensitively) to a
tracked name is rejected; otherwise `(player_name, "steam")` is appended
to `self.players` and the name is appended to `players.txt` —
and if that file write raises, the appended tuple is removed again
(`self.players.remove(...)`, which erases the first equal element).
`writeOk` models whether the file write succeeds.  Returns the new
roster and the reply sent. -/
def add_player (isAdmin : Bool) (players : List (String × String))
    (player_name : String) (writeOk : Bool) :
    List (String × String) × AddPlayerReply :=
  if !isAdmin then (players, .notAdmin)
  else if players.any (fun existing => pyLower existing.1 == pyLower player_name) then
    (players, .alreadyTracked)
  else
    let platform := "steam"
    let players' := players ++ [(player_name, platform)]
    if writeOk then (players', .added players'.length)
    else (players'.erase (player_name, platform), .saveError)

/-! ### C10 — atomicity of `!addplayer` -/

/-- C10: the add-player command is atomic on the roster: a name already
tracked (case-insensitively) is rejected with the roster unchanged, a
failed roster-file write rolls the in-memory roster back to exactly its
pre-command state, and only a successful write leaves the name appended. -/
theorem add_player_atomic (players : List (String × String))
    (player_name : String) (writeOk : Bool) :
    ((∃ existing ∈ players, pyLower existing.1 = pyLower player_name) →
        (add_player true players player_name writeOk).1 = players ∧
          (add_player true players player_name writeOk).2 = .alreadyTracked) ∧
      ((∀ existing ∈ players, pyLower existing.1 ≠ pyLower player_name) →
        (add_player true players player_name false).1 = players ∧
          (add_player true players player_name false).2 = .saveError) ∧
      ((∀ existing ∈ players, pyLower existing.1 ≠ pyLower player_name) →
        (add_player true players player_name true).1
          = players ++ [(player_name, "steam")]) := by
  refine ⟨?_, ?_, ?_⟩
  · rintro ⟨existing, hmem, hlow⟩
    have hany : players.any
        (fun e => pyLower e.1 == pyLower player_name) = true := by
      rw [List.any_eq_true]
      exact ⟨existing, hmem, by simp [hlow]⟩
    constructor <;> simp [add_player, hany]
  · intro hnone
    have hany : players.any
        (fun e => pyLower e.1 == pyLower player_name) = false := by
      rw [List.any_eq_false]
      intro e he
      simpa using hnone e he
    have hnotmem : (player_name, "steam") ∉ players := by
      intro hmem
      exact hnone _ hmem rfl
    have herase :
        (players ++ [(player_name, "steam")]).erase (player_name, "steam")
          = players := by
      rw [List.erase_append_right _ hnotmem]
      simp
    constructor <;> simp [add_player, hany, herase]
  · intro hnone
    have hany : players.any
        (fun e => pyLower e.1 == pyLower player_name) = false := by
      rw [List.any_eq_false]
      intro e he
      simpa using hnone e he
    simp [add_player, hany]

/-- C10 witness: the atomicity theorem applied with roster
`[("Bob", "steam")]` and candidate name `Alice`: the duplicate guard does
not fire, and a failed write leaves the roster as it was. -/
theorem add_player_atomic_witness :
    (add_player true [("Bob", "steam")] "Alice" false).1 = [("Bob", "steam")] ∧
      (add_player true [("Bob", "steam")] "bob" true).1 = [("Bob", "steam")] := by
  have h := add_player_atomic [("Bob", "steam")] "Alice" false
  have h' := add_player_atomic [("Bob", "steam")] "bob" true
  refine ⟨(h.2.1 (by decide)).1, (h'.1 ⟨("Bob", "steam"), by decide, by decide⟩).1⟩

/-! ### `weekly_stats.py` — `calculate_weekly_best` (lines 55–207)

History entries are the flattened player-match records written by
`save_match_history`.  Python floats are rationals here; the ISO
timestamp string is modelled by its parse result (`none` when
`datetime.fromisoformat` raises, which the per-entry `except` turns into
a drop).  `round(x, n)` is `pyRound2`/`pyRound1` (round half up; CPython
rounds half to even over binary floats, but no statement below evaluates
a tie).  The participant `rank` is modelled as a number (the code's
`'N/A'` placeholder never reaches the comparisons in the claims). -/

/-- Python `round(q, 2)` on exact rationals. -/
def pyRound2 (q : ℚ) : ℚ := (⌊q * 100 + 1 / 2⌋ : ℚ) / 100

/-- Python `round(q, 1)` on exact rationals. -/
def pyRound1 (q : ℚ) : ℚ := (⌊q * 10 + 1 / 2⌋ : ℚ) / 10

/-- The per-player per-match stats a history entry stores (the fields
`calculate_weekly_best` reads from `match['stats']`). -/
structure HistStats where
  rank : Nat
  kills : Nat
  damage_dealt : ℚ
  survival_time_minutes : ℚ
  headshot_kills : Nat
  assists : Nat
  dbnos : Nat
  walk_distance : ℚ
  ride_distance : ℚ
  longest_kill : ℚ

/-- One entry of `match_history.json`: a (match, player) pair. -/
structure HistEntry where
  player_name : String
  timestamp : Option Int
  category : String
  stats : HistStats

/-- `weekly_stats.py` lines 66–72: is the entry's category excluded?
`category = match.get('category', '').upper()` followed by
`any(excl in category for excl in {"CASUAL", "ARCADE"}) or
'AIROYALE' in category`. -/
def entryExcludedByCategory (e : HistEntry) : Bool :=
  let category := pyUpper e.category
  pyStrIn "CASUAL" category || pyStrIn "ARCADE" category ||
    pyStrIn "AIROYALE" category

/-- Case-insensitive substring test (both sides upper-cased); the
predicate the spec describes for category exclusion. -/
def ciStrIn (needle hay : String) : Bool :=
  pyStrIn (pyUpper needle) (pyUpper hay)

/-- `weekly_stats.py` lines 68–80: the filter pass.  An entry survives
when its category is not excluded, its timestamp parses, and
`match_time >= cutoff_time`; a parse failure is caught per entry and the
entry dropped. -/
def recent_matches (history : List HistEntry) (cutoff : Int) : List HistEntry :=
  history.filter fun e =>
    !entryExcludedByCategory e &&
      match e.timestamp with
      | none => false
      | some t => cutoff ≤ t

/-- The accumulator dict created at `weekly_stats.py` lines 98–115. -/
structure RawAgg where
  matches_played : Nat := 0
  total_kills : Nat := 0
  total_damage : ℚ := 0
  total_survival : ℚ := 0
  wins : Nat := 0
  top_5 : Nat := 0
  top_10 : Nat := 0
  total_headshots : Nat := 0
  total_assists : Nat := 0
  total_dbnos : Nat := 0
  best_kills : Nat := 0
  best_damage : ℚ := 0
  best_survival : ℚ := 0
  total_distance : ℚ := 0
  longest_kill : ℚ := 0

/-- `weekly_stats.py` lines 117–145: fold one history entry into a
player's accumulator — totals, walk+ride distance in km, win/top-5/top-10
counts from `rank`, and running strict maxima. -/
def accStep (ps : RawAgg) (e : HistEntry) : RawAgg :=
  let s := e.stats
  { matches_played := ps.matches_played + 1
    total_kills := ps.total_kills + s.kills
    total_damage := ps.total_damage + s.damage_dealt
    total_survival := ps.total_survival + s.survival_time_minutes
    total_headshots := ps.total_headshots + s.headshot_kills
    total_assists := ps.total_assists + s.assists
    total_dbnos := ps.total_dbnos + s.dbnos
    total_distance := ps.total_distance + (s.walk_distance + s.ride_distance) / 1000
    wins := if s.rank == 1 then ps.wins + 1 else ps.wins
    top_5 := if s.rank ≤ 5 then ps.top_5 + 1 else ps.top_5
    top_10 := if s.rank ≤ 10 then ps.top_10 + 1 else ps.top_10
    best_kills := if s.kills > ps.best_kills then s.kills else ps.best_kills
    best_damage := if s.damage_dealt > ps.best_damage then s.damage_dealt else ps.best_damage
    best_survival := if s.survival_time_minutes > ps.best_survival then s.survival_time_minutes else ps.best_survival
    longest_kill := if s.longest_kill > ps.longest_kill then s.longest_kill else ps.longest_kill }

/-- The derived fields added at `weekly_stats.py` lines 164–182, on top of
the accumulated totals. -/
structure FinalAgg where
  raw : RawAgg
  avg_kills : ℚ
  avg_damage : ℚ
  avg_survival : ℚ
  avg_distance : ℚ
  win_rate : ℚ
  top_5_rate : ℚ
  score : ℚ

/-- `weekly_stats.py` lines 164–182: rounded averages, rates, and the
composite score
`avg_kills*100 + avg_damage*0.5 + wins*500 + top_5*100 + top_10*50 +
avg_survival*10 + total_headshots*20` (the score uses the *rounded*
average fields, as the code reads them back out of the dict). -/
def finalizeAgg (a : RawAgg) : FinalAgg :=
  let m : ℚ := a.matches_played
  let avg_kills := pyRound2 ((a.total_kills : ℚ) / m)
  let avg_damage := pyRound2 (a.total_damage / m)
  let avg_survival := pyRound2 (a.total_survival / m)
  { raw := a
    avg_kills := avg_kills
    avg_damage := avg_damage
    avg_survival := avg_survival
    avg_distance := pyRound2 (a.total_distance / m)
    win_rate := pyRound1 ((a.wins : ℚ) / m * 100)
    top_5_rate := pyRound1 ((a.top_5 : ℚ) / m * 100)
    score := avg_kills * 100 + avg_damage * (1 / 2) + (a.wins : ℚ) * 500 +
      (a.top_5 : ℚ) * 100 + (a.top_10 : ℚ) * 50 + avg_survival * 10 +
      (a.total_headshots : ℚ) * 20 }

/-- The players of the filtered history in order of first appearance —
the iteration order of the Python `player_stats` dict. -/
def playersOrder (rm : List HistEntry) : List String :=
  rm.foldl (fun acc e =>
    if acc.contains e.player_name then acc else acc ++ [e.player_name]) []

/-- The accumulator a player's dict entry holds after the loop of
`weekly_stats.py` lines 94–150: their entries of the filtered history,
folded in order. -/
def playerRaw (rm : List HistEntry) (p : String) : RawAgg :=
  (rm.filter (fun e => e.player_name == p)).foldl accStep {}

/-- `weekly_stats.py` lines 147–162: pool every positive `longest_kill`
as `(distance, player)`, sort descending by distance (Python's stable
sort; modelled by insertion sort on strict greater-than, which is also
stable), then keep each player's first (best) entry, stopping at three. -/
def top3_longest_kills (rm : List HistEntry) : List (ℚ × String) :=
  let pool := rm.filterMap fun e =>
    if e.stats.longest_kill > 0 then some (e.stats.longest_kill, e.player_name)
    else none
  let sorted := pool.insertionSort fun x y => x.1 > y.1
  sorted.foldl (fun acc q =>
    if acc.length == 3 then acc
    else if (acc.map Prod.snd).contains q.2 then acc
    else acc ++ [q]) []

/-- Python `max(items, key=lambda x: x[1]['score'])` over a nonempty
association list: the first entry of maximal score. -/
def pyMaxByScore (hd : String × FinalAgg) (tl : List (String × FinalAgg)) :
    String × FinalAgg :=
  tl.foldl (fun best q => if q.2.score > best.2.score then q else best) hd

/-- The value `calculate_weekly_best` returns when history survives the
filter (`weekly_stats.py` lines 195–202). -/
structure WeeklySummary where
  player : String
  stats : FinalAgg
  top3_longest_kills : List (ℚ × String)
  all_players : List (String × FinalAgg)
  days : Nat
  total_matches : Nat

/-- The per-player aggregates in dict iteration order (first appearance),
as `player_stats.items()` yields them. -/
def allPlayerAggs (rm : List HistEntry) : List (String × FinalAgg) :=
  (playersOrder rm).map fun p => (p, finalizeAgg (playerRaw rm p))

/-- `weekly_stats.py` lines 86–202: everything after the filter, for a
nonempty filtered history `hd :: tl`: group by player, finalise each
aggregate, pick the best player (first maximal score), sort players by
score descending (stable), and assemble the summary. -/
def weeklyFromRecent (hd : HistEntry) (tl : List HistEntry) (days : Nat) :
    WeeklySummary :=
  let rm := hd :: tl
  let aggs := allPlayerAggs rm
  let hd0 := (hd.player_name, finalizeAgg (playerRaw rm hd.player_name))
  let best := pyMaxByScore hd0 aggs.tail
  { player := best.1
    stats := best.2
    top3_longest_kills := top3_longest_kills rm
    all_players := aggs.insertionSort fun x y => x.2.score > y.2.score
    days := days
    total_matches := rm.length }

/-- The `some history` arm of `calculate_weekly_best`: filter to the
lookback window (`cutoff = now − days · 86400` seconds), return `none`
when nothing survives, else the assembled summary. -/
def weeklyOfHistory (history : List HistEntry) (now : Int) (days : Nat) :
    Option WeeklySummary :=
  match recent_matches history (now - (days : Int) * 86400) with
  | [] => none
  | hd :: tl => some (weeklyFromRecent hd tl days)

/-- `weekly_stats.py` lines 55–207, `WeeklyStatsManager.calculate_weekly_best`:
`none` when the history file is missing or unreadable (`file = none`),
otherwise `weeklyOfHistory`.  The function is total: every exception path
of the source is a modelled `none`/drop. -/
def calculate_weekly_best (file : Option (List HistEntry)) (now : Int)
    (days : Nat) : Option WeeklySummary :=
  match file with
  | none => none
  | some history => weeklyOfHistory history now days

/-! ### C6 — category exclusion in weekly aggregation -/

/-- C6: weekly aggregation excludes every history entry whose stored
category contains `CASUAL`, `ARCADE` or `AIROYALE` case-insensitively
(the code uppercases the category and tests the uppercase needles; that
is exactly the case-insensitive substring test `ciStrIn`): no such entry
survives the filter, and deleting all of them from the history leaves the
whole weekly result — every aggregate, score, and the longest-kill list —
unchanged. -/
theorem weekly_excludes_casual_arcade_airoyale :
    (∀ e : HistEntry,
      entryExcludedByCategory e
        = (ciStrIn "casual" e.category || ciStrIn "arcade" e.category ||
            ciStrIn "airoyale" e.category)) ∧
    ∀ (history : List HistEntry) (now : Int) (days : Nat),
      (∀ e ∈ recent_matches history (now - (days : Int) * 86400),
        entryExcludedByCategory e = false) ∧
      calculate_weekly_best
          (some (history.filter fun e => !entryExcludedByCategory e)) now days
        = calculate_weekly_best (some history) now days := by
  constructor
  · intro e
    rfl
  intro history now days
  constructor
  · intro e he
    have := List.of_mem_filter he
    revert this
    cases entryExcludedByCategory e <;> simp
  · have hrm : recent_matches (history.filter fun e => !entryExcludedByCategory e)
        (now - (days : Int) * 86400)
          = recent_matches history (now - (days : Int) * 86400) := by
      unfold recent_matches
      rw [List.filter_filter]
      apply List.filter_congr
      intro e _
      cases hexc : entryExcludedByCategory e <;> simp [hexc]
    show weeklyOfHistory _ now days = weeklyOfHistory history now days
    unfold weeklyOfHistory
    rw [hrm]

/-! ### Fold lemmas for the per-player accumulator -/

/-- Folding entries adds one to `matches_played` per entry. -/
theorem foldl_accStep_matches_played (es : List HistEntry) (a : RawAgg) :
    (es.foldl accStep a).matches_played = a.matches_played + es.length := by
  induction es generalizing a with
  | nil => simp
  | cons e es ih => simp [List.foldl_cons, ih, accStep]; omega

/-- Folding entries sums their kills into `total_kills`. -/
theorem foldl_accStep_total_kills (es : List HistEntry) (a : RawAgg) :
    (es.foldl accStep a).total_kills
      = a.total_kills + (es.map fun e => e.stats.kills).sum := by
  induction es generalizing a with
  | nil => simp
  | cons e es ih => simp [List.foldl_cons, ih, accStep]; omega

/-- Folding entries counts rank-1 entries into `wins`. -/
theorem foldl_accStep_wins (es : List HistEntry) (a : RawAgg) :
    (es.foldl accStep a).wins
      = a.wins + es.countP (fun e => e.stats.rank == 1) := by
  induction es generalizing a with
  | nil => simp
  | cons e es ih =>
    rw [List.foldl_cons, ih, List.countP_cons]
    by_cases h : e.stats.rank = 1 <;> (simp [accStep, h]; try omega)

/-- `best_kills` is the fold of `max` over the entries' kills. -/
theorem foldl_accStep_best_kills (es : List HistEntry) (a : RawAgg) :
    (es.foldl accStep a).best_kills
      = (es.map fun e => e.stats.kills).foldl max a.best_kills := by
  induction es generalizing a with
  | nil => simp
  | cons e es ih =>
    rw [List.foldl_cons, ih]
    simp only [List.map_cons, List.foldl_cons]
    congr 1
    simp only [accStep]
    split_ifs with h <;> omega

/-- `foldl max` dominates every list element and the seed. -/
theorem foldl_max_ge (l : List Nat) (i : Nat) :
    i ≤ l.foldl max i ∧ ∀ x ∈ l, x ≤ l.foldl max i := by
  induction l generalizing i with
  | nil => simp
  | cons y l ih =>
    refine ⟨le_trans (le_max_left i y) (ih (max i y)).1, ?_⟩
    intro x hx
    rcases List.mem_cons.mp hx with rfl | hx
    · exact le_trans (le_max_right i x) (ih (max i x)).1
    · exact (ih (max i y)).2 x hx

/-- `foldl max` is the seed or one of the elements. -/
theorem foldl_max_mem (l : List Nat) (i : Nat) :
    l.foldl max i = i ∨ l.foldl max i ∈ l := by
  induction l generalizing i with
  | nil => simp
  | cons y l ih =>
    rw [List.foldl_cons]
    rcases ih (max i y) with h | h
    · rcases max_choice i y with hm | hm
      · left; rw [h, hm]
      · right; rw [h, hm]; exact List.mem_cons_self _ _
    · right; exact List.mem_cons_of_mem _ h

/-! ### C7 — the per-player weekly aggregate -/

/-- A history entry for the single player `P`: `category` NORMAL,
timestamp 500000, `kills` as given, all other stats zero (rank 99). -/
def soloKillsEntry (kills : Nat) : HistEntry :=
  { player_name := "P"
    timestamp := some 500000
    category := "NORMAL"
    stats :=
      { rank := 99, kills := kills, damage_dealt := 0
        survival_time_minutes := 0, headshot_kills := 0, assists := 0
        dbnos := 0, walk_distance := 0, ride_distance := 0
        longest_kill := 0 } }

/-- C7 counterexample: the claim says the aggregate's `avgKills` equals
total kills divided by match count.  The code stores
`round(total_kills / matches, 2)`.  For one tracked player with kills
1, 0, 0 in the window, the weekly best-player aggregate holds
`avg_kills = 0.33 ≠ 1/3`. -/
theorem weekly_avg_kills_is_rounded :
    (calculate_weekly_best
          (some [soloKillsEntry 1, soloKillsEntry 0, soloKillsEntry 0])
          1000000 7).map (fun s => s.stats.avg_kills)
        = some (33 / 100) ∧
      ((33 : ℚ) / 100) ≠ 1 / 3 ∧
      (playerRaw [soloKillsEntry 1, soloKillsEntry 0, soloKillsEntry 0]
          "P").total_kills = 1 ∧
      (playerRaw [soloKillsEntry 1, soloKillsEntry 0, soloKillsEntry 0]
          "P").matches_played = 3 := by
  refine ⟨?_, by norm_num, rfl, rfl⟩
  have h1 : calculate_weekly_best
      (some [soloKillsEntry 1, soloKillsEntry 0, soloKillsEntry 0]) 1000000 7
        = some (weeklyFromRecent (soloKillsEntry 1)
            [soloKillsEntry 0, soloKillsEntry 0] 7) := rfl
  rw [h1]
  simp only [Option.map_some']
  have h2 : (weeklyFromRecent (soloKillsEntry 1)
      [soloKillsEntry 0, soloKillsEntry 0] 7).stats
        = finalizeAgg (playerRaw
            [soloKillsEntry 1, soloKillsEntry 0, soloKillsEntry 0] "P") := rfl
  rw [h2]
  have h3 : (playerRaw [soloKillsEntry 1, soloKillsEntry 0, soloKillsEntry 0]
      "P").total_kills = 1 := rfl
  have h4 : (playerRaw [soloKillsEntry 1, soloKillsEntry 0, soloKillsEntry 0]
      "P").matches_played = 3 := rfl
  simp only [finalizeAgg, h3, h4]
  norm_num [pyRound2]

/-- The Alice scenario of the spec: a history entry for `Alice`
(category NORMAL, timestamp 500000) with the given kills, damage and
rank; all other stats zero. -/
def aliceEntry (kills : Nat) (damage : ℚ) (rank : Nat) : HistEntry :=
  { player_name := "Alice"
    timestamp := some 500000
    category := "NORMAL"
    stats :=
      { rank := rank, kills := kills, damage_dealt := damage
        survival_time_minutes := 0, headshot_kills := 0, assists := 0
        dbnos := 0, walk_distance := 0, ride_distance := 0
        longest_kill := 0 } }

/-- Alice's three in-window matches: kills 5, 3, 10; damage 400, 200,
600; rank 1, 4, 2 — and nothing for Bob. -/
def aliceHistory : List HistEntry :=
  [aliceEntry 5 400 1, aliceEntry 3 200 4, aliceEntry 10 600 2]

/-- C7 (amended): the per-player weekly aggregate satisfies
`matches = #entries`, `total_kills = Σ kills`,
`wins = #(entries with rank 1)`, `best_kills = max kills` (it bounds
every entry and is attained by one), `avg_kills` equals total kills
divided by match count *rounded to two decimal places*, and the
composite score is
`avg_kills·100 + avg_damage·0.5 + wins·500 + top5·100 + top10·50 +
avg_survival·10 + totalHeadshots·20` over the stored (rounded) averages;
in the Alice scenario the weekly best-player aggregate has
`avg_kills = 6`, `wins = 1`, `best_kills = 10`, and Alice is the only
ranked player. -/
theorem weekly_player_aggregate (rm : List HistEntry) (p : String)
    (hne : rm.filter (fun e => e.player_name == p) ≠ []) :
    (playerRaw rm p).matches_played
        = (rm.filter (fun e => e.player_name == p)).length ∧
      (playerRaw rm p).total_kills
        = ((rm.filter (fun e => e.player_name == p)).map
            (fun e => e.stats.kills)).sum ∧
      (playerRaw rm p).wins
        = (rm.filter (fun e => e.player_name == p)).countP
            (fun e => e.stats.rank == 1) ∧
      (∀ e ∈ rm.filter (fun e => e.player_name == p),
        e.stats.kills ≤ (playerRaw rm p).best_kills) ∧
      (playerRaw rm p).best_kills
        ∈ (rm.filter (fun e => e.player_name == p)).map
            (fun e => e.stats.kills) ∧
      (finalizeAgg (playerRaw rm p)).avg_kills
        = pyRound2 (((playerRaw rm p).total_kills : ℚ)
            / ((playerRaw rm p).matches_played : ℚ)) ∧
      (finalizeAgg (playerRaw rm p)).score
        = (finalizeAgg (playerRaw rm p)).avg_kills * 100 +
            (finalizeAgg (playerRaw rm p)).avg_damage * (1 / 2) +
            ((playerRaw rm p).wins : ℚ) * 500 +
            ((playerRaw rm p).top_5 : ℚ) * 100 +
            ((playerRaw rm p).top_10 : ℚ) * 50 +
            (finalizeAgg (playerRaw rm p)).avg_survival * 10 +
            ((playerRaw rm p).total_headshots : ℚ) * 20 ∧
      (calculate_weekly_best (some aliceHistory) 1000000 7).map
          (fun s => (s.stats.avg_kills, s.stats.raw.wins,
            s.stats.raw.best_kills))
        = some (6, 1, 10) ∧
      (calculate_weekly_best (some aliceHistory) 1000000 7).map
          (fun s => s.all_players.map Prod.fst)
        = some ["Alice"] := by
  set es := rm.filter (fun e => e.player_name == p) with hes
  have hbk : (playerRaw rm p).best_kills
      = (es.map fun e => e.stats.kills).foldl max 0 := by
    rw [playerRaw, ← hes, foldl_accStep_best_kills]
  refine ⟨?_, ?_, ?_, ?_, ?_, rfl, rfl, ?_, ?_⟩
  · rw [playerRaw, ← hes, foldl_accStep_matches_played]; simp
  · rw [playerRaw, ← hes, foldl_accStep_total_kills]; simp
  · rw [playerRaw, ← hes, foldl_accStep_wins]; simp
  · intro e he
    rw [hbk]
    exact (foldl_max_ge _ 0).2 _ (List.mem_map_of_mem _ he)
  · rw [hbk]
    rcases foldl_max_mem (es.map fun e => e.stats.kills) 0 with h0 | hmem
    · rcases es with _ | ⟨e, es'⟩
      · exact absurd rfl hne
      · have hle : e.stats.kills ≤ ((e :: es').map
            fun e => e.stats.kills).foldl max 0 :=
          (foldl_max_ge _ 0).2 _ (List.mem_map_of_mem _ (List.mem_cons_self e es'))
        have : e.stats.kills = 0 := by omega
        rw [h0]
        simp [this]
    · exact hmem
  · have h1 : calculate_weekly_best (some aliceHistory) 1000000 7
        = some (weeklyFromRecent (aliceEntry 5 400 1)
            [aliceEntry 3 200 4, aliceEntry 10 600 2] 7) := rfl
    rw [h1]
    simp only [Option.map_some']
    have hs : (weeklyFromRecent (aliceEntry 5 400 1)
        [aliceEntry 3 200 4, aliceEntry 10 600 2] 7).stats
          = finalizeAgg (playerRaw aliceHistory "Alice") := rfl
    rw [hs]
    have ht : (playerRaw aliceHistory "Alice").total_kills = 18 := rfl
    have hm : (playerRaw aliceHistory "Alice").matches_played = 3 := rfl
    have hw : (playerRaw aliceHistory "Alice").wins = 1 := rfl
    have hb : (playerRaw aliceHistory "Alice").best_kills = 10 := rfl
    simp only [Prod.mk.injEq, finalizeAgg, ht, hm, hw, hb]
    norm_num [pyRound2]
  · rfl

/-- C7 witness: the aggregate theorem applied to Alice's history; from it,
her match count, win count and total kills. -/
theorem weekly_player_aggregate_witness :
    (playerRaw aliceHistory "Alice").matches_played
        = (aliceHistory.filter (fun e => e.player_name == "Alice")).length ∧
      (playerRaw aliceHistory "Alice").wins
        = (aliceHistory.filter (fun e => e.player_name == "Alice")).countP
            (fun e => e.stats.rank == 1) ∧
      (playerRaw aliceHistory "Alice").best_kills
        ∈ (aliceHistory.filter (fun e => e.player_name == "Alice")).map
            (fun e => e.stats.kills) := by
  have hne : aliceHistory.filter (fun e => e.player_name == "Alice") ≠ [] := by
    intro h
    have := congrArg List.length h
    simp only [List.length_nil] at this
    rw [show (aliceHistory.filter
      (fun e => e.player_name == "Alice")).length = 3 from rfl] at this
    exact absurd this (by norm_num)
  have h := weekly_player_aggregate aliceHistory "Alice" hne
  exact ⟨h.1, h.2.2.1, h.2.2.2.2.1⟩

/-! ### C8 — empty or fully filtered history -/

/-- C8: `calculate_weekly_best` returns the empty result (`none`) when the
history file is missing or unreadable, when the history log is empty, and
when every entry is dropped by the category exclusion or the lookback
cutoff (timestamps unparsable or before the cutoff).  The embedding is a
total function, matching the source's behaviour of catching every
exception and returning `None`. -/
theorem weekly_empty_or_filtered_none (history : List HistEntry) (now : Int)
    (days : Nat)
    (hall : ∀ e ∈ history, entryExcludedByCategory e = true ∨
      ∀ t, e.timestamp = some t → t < now - (days : Int) * 86400) :
    calculate_weekly_best none now days = none ∧
      calculate_weekly_best (some []) now days = none ∧
      calculate_weekly_best (some history) now days = none := by
  refine ⟨rfl, rfl, ?_⟩
  have hrm : recent_matches history (now - (days : Int) * 86400) = [] := by
    rw [recent_matches, List.filter_eq_nil_iff]
    intro e he
    rcases hall e he with hexc | hts
    · simp [hexc]
    · cases hts' : e.timestamp with
      | none => simp [hts']
      | some t =>
        have := hts t hts'
        simp only [hts', Bool.and_eq_true, Bool.not_eq_true', decide_eq_true_eq]
        intro hcon
        omega
  show weeklyOfHistory history now days = none
  rw [weeklyOfHistory, hrm]

/-- A history entry with the given name, timestamp, category, rank and
kills; every other stat zero. -/
def mkEntry (name : String) (ts : Option Int) (cat : String)
    (rank kills : Nat) : HistEntry :=
  { player_name := name
    timestamp := ts
    category := cat
    stats :=
      { rank := rank, kills := kills, damage_dealt := 0
        survival_time_minutes := 0, headshot_kills := 0, assists := 0
        dbnos := 0, walk_distance := 0, ride_distance := 0
        longest_kill := 0 } }

/-- C8 witness: the theorem applied to a two-entry history of one
ARCADE-category entry and one stale-timestamp entry, showing it yields
the empty result. -/
theorem weekly_empty_or_filtered_none_witness :
    calculate_weekly_best
        (some [mkEntry "A" (some 500000) "ARCADE" 1 0,
               mkEntry "B" (some 3) "NORMAL" 2 1])
        1000000 7 = none := by
  refine (weekly_empty_or_filtered_none _ 1000000 7 ?_).2.2
  intro e he
  rcases List.mem_cons.mp he with rfl | he'
  · left; rfl
  · rcases List.mem_cons.mp he' with rfl | h
    · right
      intro t ht
      simp only [mkEntry, Option.some.injEq] at ht
      omega
    · exact absurd h (List.not_mem_nil _)

/-! ### `tracker.py` — match discovery (lines 97–216, 272–303)

The remote API is modelled by two functions: `latest p` is the outcome of
resolving player `p`'s most recent match id (`none` covers player not
found, no matches, and request failure — all the source's early
`return None` paths), and `matchApi mid` is the match-detail payload.
The per-player stats dict that `find_player_stats` extracts (22 fields
with zero/`N/A` defaults and 2-decimal rounding) is carried as an opaque
payload `σ`: the claims about the cycle concern only *which* players'
stats a record holds. -/

/-- One object of the match payload's `included` array, as
`find_player_stats` reads it: `item['type']`,
`item['attributes']['stats']['name']`, and the stats payload. -/
structure IncludedItem (σ : Type) where
  itemType : String
  name : String
  stats : σ
deriving DecidableEq

/-- `tracker.py` lines 272–303, `find_player_stats`: the first `included`
item of type `participant` whose stats name equals the player name
case-insensitively; `none` when there is none. -/
def find_player_stats {σ : Type} (included : List (IncludedItem σ))
    (player_name : String) : Option σ :=
  (included.find? fun item =>
    item.itemType == "participant" &&
      pyLower item.name == pyLower player_name).map (fun item => item.stats)

/-- The match-detail payload after the `.get(...)` defaulting of
`tracker.py` lines 176–187. -/
structure MatchApi (σ : Type) where
  gameMode : String
  matchType : String
  isCustomMatch : Bool
  mapName : String
  duration : Nat
  createdAt : String
  included : List (IncludedItem σ)
deriving DecidableEq

/-- The `match_data` dict built at `tracker.py` lines 197–209
(`played_at_formatted`, a presentation-only reformatting of `createdAt`,
is omitted).  `all_players_stats` is a dict in insertion order: one entry
per tracked player whose stats were found. -/
structure MatchRecord (σ : Type) where
  match_id : String
  match_category : String
  game_mode : String
  match_type : String
  is_custom : Bool
  map : String
  duration_seconds : Nat
  duration_minutes : Nat
  played_at : String
  all_players_stats : List (String × σ)
deriving DecidableEq

/-- `tracker.py` lines 162–216, `get_match_details`: `none` when the
request fails; otherwise the record, with stats extracted for every
tracked player found among the participants (the `for player_name in
tracked_players` loop of lines 191–195).  Note there is no emptiness
check on `all_players_stats`: the record is returned even when no
tracked player was found. -/
def get_match_details {σ : Type} (matchApi : String → Option (MatchApi σ))
    (match_id : String) (tracked_players : List String) :
    Option (MatchRecord σ) :=
  match matchApi match_id with
  | none => none
  | some data =>
    some { match_id := match_id
           match_category :=
             determine_match_category data.gameMode data.matchType data.isCustomMatch
           game_mode := data.gameMode
           match_type := data.matchType
           is_custom := data.isCustomMatch
           map := data.mapName
           duration_seconds := data.duration
           duration_minutes := data.duration / 60
           played_at := data.createdAt
           all_players_stats := tracked_players.filterMap fun p =>
             (find_player_stats data.included p).map (fun s => (p, s)) }

/-- The tracker state a cycle threads through `get_latest_match`
(`tracker.py` lines 24–28): the per-cycle results and dedup set, and the
cross-cycle player → last-seen-match-id dict. -/
structure TrackerState (σ : Type) where
  results : List (MatchRecord σ)
  last_match_ids : List (String × String)
  processed_matches_this_cycle : List String
deriving DecidableEq

/-- Python dict update `last_match_ids[player] = id`: replace the
existing binding or append a new one. -/
def setLastMatch (m : List (String × String)) (player id : String) :
    List (String × String) :=
  if m.any (fun q => q.1 == player) then
    m.map fun q => if q.1 == player then (player, id) else q
  else m ++ [(player, id)]

/-- `tracker.py` lines 97–160, `get_latest_match`, as a state transformer:

* resolution failure (player not found / no matches / request failure) →
  state unchanged (the source's early `return None`s);
* match id already in the per-cycle dedup set → record it as the
  player's last-seen id, fetch nothing (lines 121–126);
* match id equals the player's last-seen id from a previous cycle →
  skip (lines 128–133);
* otherwise mark the id in the dedup set, update the last-seen id,
  fetch the match detail with the full tracked roster, and append the
  record to `results` when the fetch returns one (`if match_data:` —
  the dict is truthy whenever the fetch returned, lines 139–155). -/
def get_latest_match {σ : Type} (latest : String → Option String)
    (matchApi : String → Option (MatchApi σ)) (st : TrackerState σ)
    (player_name : String) (all_tracked_players : List String) :
    TrackerState σ :=
  match latest player_name with
  | none => st
  | some latest_match_id =>
    if st.processed_matches_this_cycle.contains latest_match_id then
      { st with
          last_match_ids := setLastMatch st.last_match_ids player_name latest_match_id }
    else if st.last_match_ids.lookup player_name == some latest_match_id then
      st
    else
      let st1 : TrackerState σ :=
        { st with
            processed_matches_this_cycle :=
              st.processed_matches_this_cycle ++ [latest_match_id]
            last_match_ids := setLastMatch st.last_match_ids player_name latest_match_id }
      match get_match_details matchApi latest_match_id all_tracked_players with
      | some match_data => { st1 with results := st1.results ++ [match_data] }
      | none => st1

/-- `bot.py` lines 263–289, one polling cycle: reset the per-cycle state
(`reset_cycle` keeps `last_match_ids`), then run `get_latest_match` for
each tracked player in roster order, passing the full roster. -/
def check_matches_cycle {σ : Type} (latest : String → Option String)
    (matchApi : String → Option (MatchApi σ)) (players : List String)
    (last_match_ids : List (String × String)) : TrackerState σ :=
  players.foldl
    (fun st p => get_latest_match latest matchApi st p players)
    { results := []
      last_match_ids := last_match_ids
      processed_matches_this_cycle := [] }

/-! ### `embeds.py` / `bot.py` — the publish step

The visual layout of the Discord embed (colors, emoji, field text) is
presentation and out of the spec's scope; the model keeps the embed
builder's control flow — `embeds.py` lines 7–10 return `None` for a
record with an empty `all_players_stats`, otherwise an embed — and
carries the record itself as the embed's payload. -/

/-- `embeds.py` lines 6–166, `create_enhanced_match_embed`: `none` when
`all_players_stats` is empty, else an embed (modelled by its source
record). -/
def create_enhanced_match_embed {σ : Type} (m : MatchRecord σ) :
    Option (MatchRecord σ) :=
  if m.all_players_stats.isEmpty then none else some m

/-- An observable action of `post_matches_to_discord`: writing the
ledger file (`save_posted_matches`) or sending one match embed to the
channel. -/
inductive PostEvent (σ : Type) where
  | persist (ledger : List String)
  | send (m : MatchRecord σ)

/-- `bot.py` lines 349–357: split the cycle's matches against the posted
set — each match whose id is not yet posted joins `new_matches` and its
id joins the set, in order. -/
def filterNewMatches {σ : Type} :
    List (MatchRecord σ) → List String → List (MatchRecord σ) × List String
  | [], posted => ([], posted)
  | m :: rest, posted =>
    if posted.contains m.match_id then filterNewMatches rest posted
    else
      let r := filterNewMatches rest (posted ++ [m.match_id])
      (m :: r.1, r.2)

/-- `bot.py` lines 367–377, the send loop: build each new match's embed,
send it when the builder returned one, skip it otherwise.  `sendOk m`
models whether `channel.send` succeeds; a raised send aborts the loop
(the exception reaches the function-level `except`), after the attempted
send. -/
def sendLoop {σ : Type} (sendOk : MatchRecord σ → Bool) :
    List (MatchRecord σ) → List (PostEvent σ)
  | [] => []
  | m :: rest =>
    match create_enhanced_match_embed m with
    | none => sendLoop sendOk rest
    | some _ =>
      if sendOk m then PostEvent.send m :: sendLoop sendOk rest
      else [PostEvent.send m]

/-- The outcome of one `post_matches_to_discord` call: the posted set it
leaves in memory (as the list the set enumerates to) and the ordered
events it performed. -/
structure PostResult (σ : Type) where
  posted : List String
  events : List (PostEvent σ)

/-- `bot.py` lines 342–385, `post_matches_to_discord`: filter the
matches against the posted set, adding new ids; when nothing is new,
return with no events; otherwise persist the ledger
(`save_posted_matches`, which truncates the set's enumeration `enum` to
`max_history` and makes that the new in-memory set) and only then run
the send loop.  `enum` is the unspecified iteration order of the updated
set, constrained to a permutation of its elements in the theorems. -/
def post_matches_to_discord {σ : Type} (ms : List (MatchRecord σ))
    (posted₀ : List String) (enum : List String) (max_history : Nat)
    (sendOk : MatchRecord σ → Bool) : PostResult σ :=
  let step := filterNewMatches ms posted₀
  if step.1.isEmpty then { posted := step.2, events := [] }
  else
    let persisted := save_posted_matches enum max_history
    { posted := persisted
      events := PostEvent.persist persisted :: sendLoop sendOk step.1 }

/-! ### C4 — records with an empty player-stats mapping -/

/-- Every record in the `new_matches` list has an id that was not yet in
the posted set. -/
theorem filterNewMatches_not_posted {σ : Type} (ms : List (MatchRecord σ))
    (posted : List String) :
    ∀ m ∈ (filterNewMatches ms posted).1, m.match_id ∉ posted := by
  induction ms generalizing posted with
  | nil => intro m hm; exact absurd hm (List.not_mem_nil m)
  | cons m₀ rest ih =>
    intro m hm
    by_cases hc : posted.contains m₀.match_id
    · rw [filterNewMatches, if_pos hc] at hm
      exact ih posted m hm
    · rw [filterNewMatches, if_neg hc] at hm
      rcases List.mem_cons.mp hm with rfl | hm'
      · exact fun habs => hc (List.elem_eq_true_of_mem habs)
      · intro habs
        exact ih (posted ++ [m₀.match_id]) m hm'
          (List.mem_append_left _ habs)

/-- Every send event of the send loop is the send of a list member whose
embed was built. -/
theorem sendLoop_send_mem {σ : Type} (sendOk : MatchRecord σ → Bool)
    (l : List (MatchRecord σ)) (m : MatchRecord σ)
    (h : PostEvent.send m ∈ sendLoop sendOk l) :
    m ∈ l ∧ create_enhanced_match_embed m ≠ none := by
  induction l with
  | nil => exact absurd h (List.not_mem_nil _)
  | cons m₀ rest ih =>
    rw [sendLoop] at h
    cases hemb : create_enhanced_match_embed m₀ with
    | none =>
      rw [hemb] at h
      exact ⟨List.mem_cons_of_mem _ (ih h).1, (ih h).2⟩
    | some e =>
      rw [hemb] at h
      by_cases hok : sendOk m₀ = true
      · rw [if_pos hok] at h
        rcases List.mem_cons.mp h with heq | h'
        · cases heq
          exact ⟨List.mem_cons_self _ _, by rw [hemb]; exact fun habs => Option.noConfusion habs⟩
        · exact ⟨List.mem_cons_of_mem _ (ih h').1, (ih h').2⟩
      · rw [if_neg hok] at h
        rcases List.mem_cons.mp h with heq | h'
        · cases heq
          exact ⟨List.mem_cons_self _ _, by rw [hemb]; exact fun habs => Option.noConfusion habs⟩
        · exact absurd h' (List.not_mem_nil _)

/-- A match-detail payload whose `included` array holds no participant:
solo/official, map Erangel, 120 seconds, no tracked player found. -/
def emptyIncludedApi : MatchApi Nat :=
  { gameMode := "solo"
    matchType := "official"
    isCustomMatch := false
    mapName := "Erangel_Main"
    duration := 120
    createdAt := "t"
    included := [] }

/-- C4 counterexample: a fetched match in which no tracked player's
stats are found (empty `included`) is *not* discarded — `get_match_details`
returns it without an emptiness check and `get_latest_match` appends it
(`if match_data:` is true for any returned dict), so the cycle's results
hold one record with an empty player-stats mapping. -/
theorem empty_stats_record_is_appended :
    ((check_matches_cycle (σ := Nat) (fun _ => some "m1")
        (fun _ => some emptyIncludedApi)
        ["A"] []).results).map
      (fun r => (r.match_id, r.all_players_stats)) = [("m1", [])] := by
  decide

/-- C4 (amended): a fetched MatchRecord with an empty player-stats
mapping *is* appended to the cycle's results list, but it is never
published: the embed builder returns nothing for it, so the posting loop
never emits a send event for it — under any posted set, enumeration,
retention limit and send outcomes. -/
theorem empty_stats_record_never_published {σ : Type}
    (ms : List (MatchRecord σ)) (posted₀ enum : List String)
    (max_history : Nat) (sendOk : MatchRecord σ → Bool) (m : MatchRecord σ)
    (hempty : m.all_players_stats = []) :
    create_enhanced_match_embed m = none ∧
      PostEvent.send m ∉
        (post_matches_to_discord ms posted₀ enum max_history sendOk).events := by
  have hemb : create_enhanced_match_embed m = none := by
    rw [create_enhanced_match_embed, hempty]
    rfl
  refine ⟨hemb, ?_⟩
  intro habs
  rw [post_matches_to_discord] at habs
  by_cases hnew : (filterNewMatches ms posted₀).1.isEmpty
  · rw [if_pos hnew] at habs
    exact absurd habs (List.not_mem_nil _)
  · rw [if_neg hnew] at habs
    rcases List.mem_cons.mp habs with heq | hsend
    · exact PostEvent.noConfusion heq
    · exact (sendLoop_send_mem sendOk _ m hsend).2 hemb

/-- C4 witness: the never-published half applied to the concrete
empty-stats record of the counterexample scenario, with one failing and
one succeeding send outcome. -/
theorem empty_stats_record_never_published_witness :
    PostEvent.send
        (⟨"m1", "NORMAL", "solo", "official", false, "Erangel_Main", 120, 2,
          "t", []⟩ : MatchRecord Nat) ∉
      (post_matches_to_discord
          [⟨"m1", "NORMAL", "solo", "official", false, "Erangel_Main", 120, 2,
            "t", []⟩]
          [] ["m1"] 200 (fun _ => true)).events :=
  (empty_stats_record_never_published _ _ _ _ _ _ rfl).2

/-! ### C9 — mark-before-publish ordering -/

/-- The posted set only grows across the new-match filter. -/
theorem filterNewMatches_posted_mono {σ : Type} (ms : List (MatchRecord σ))
    (posted : List String) :
    ∀ x ∈ posted, x ∈ (filterNewMatches ms posted).2 := by
  induction ms generalizing posted with
  | nil => intro x hx; exact hx
  | cons m₀ rest ih =>
    intro x hx
    by_cases hc : posted.contains m₀.match_id
    · rw [filterNewMatches, if_pos hc]
      exact ih posted x hx
    · rw [filterNewMatches, if_neg hc]
      exact ih (posted ++ [m₀.match_id]) x (List.mem_append_left _ hx)

/-- After the filter, every processed match's id is in the posted set. -/
theorem filterNewMatches_mem_posted {σ : Type} (ms : List (MatchRecord σ))
    (posted : List String) (m : MatchRecord σ) (hm : m ∈ ms) :
    m.match_id ∈ (filterNewMatches ms posted).2 := by
  induction ms generalizing posted with
  | nil => exact absurd hm (List.not_mem_nil m)
  | cons m₀ rest ih =>
    by_cases hc : posted.contains m₀.match_id
    · rw [filterNewMatches, if_pos hc]
      rcases List.mem_cons.mp hm with rfl | hm'
      · exact filterNewMatches_posted_mono rest posted _
          (by simpa using hc)
      · exact ih posted hm'
    · rw [filterNewMatches, if_neg hc]
      rcases List.mem_cons.mp hm with rfl | hm'
      · exact filterNewMatches_posted_mono rest _ _
          (List.mem_append_right _ (List.mem_singleton_self _))
      · exact ih (posted ++ [m₀.match_id]) hm'

/-- A match whose id is not yet posted makes the new-match list
nonempty. -/
theorem filterNewMatches_ne_nil {σ : Type} (ms : List (MatchRecord σ))
    (posted : List String) (m : MatchRecord σ) (hm : m ∈ ms)
    (hnew : m.match_id ∉ posted) :
    (filterNewMatches ms posted).1 ≠ [] := by
  induction ms generalizing posted with
  | nil => exact absurd hm (List.not_mem_nil m)
  | cons m₀ rest ih =>
    by_cases hc : posted.contains m₀.match_id
    · rw [filterNewMatches, if_pos hc]
      rcases List.mem_cons.mp hm with rfl | hm'
      · exact absurd (by simpa using hc) hnew
      · exact ih posted hm' hnew
    · rw [filterNewMatches, if_neg hc]
      exact fun habs => List.noConfusion habs

/-- Slicing keeps everything when the list fits the limit. -/
theorem pySliceLast_of_le {α : Type} (n : Nat) (l : List α)
    (h : l.length ≤ n) : pySliceLast n l = l := by
  rw [pySliceLast]
  by_cases h0 : n = 0
  · rw [if_pos h0]
  · rw [if_neg h0]
    have : l.length - n = 0 := by omega
    rw [this, List.drop_zero]

/-- C9: the publish step marks before publishing.  For a newly
discovered match (its id not yet in the posted set), provided the
updated set fits the retention limit (no truncation eviction;
`enum` is the set's enumeration): the ledger file write is the *first*
event, before every send; the match's id is in the persisted ledger and
in the in-memory posted set; the resulting posted set does not depend on
the send outcomes (a failed send leaves the match marked); and any later
publish step starting from that posted set never sends a match with this
id again. -/
theorem post_marks_before_publish {σ : Type} (ms : List (MatchRecord σ))
    (posted₀ enum : List String) (max_history : Nat)
    (sendOk : MatchRecord σ → Bool) (m : MatchRecord σ)
    (hm : m ∈ ms) (hnew : m.match_id ∉ posted₀)
    (hperm : enum.Perm (filterNewMatches ms posted₀).2)
    (hcard : (filterNewMatches ms posted₀).2.length ≤ max_history) :
    (∃ sends,
      (post_matches_to_discord ms posted₀ enum max_history sendOk).events
        = PostEvent.persist
            (post_matches_to_discord ms posted₀ enum max_history sendOk).posted
          :: sends) ∧
      m.match_id ∈ (post_matches_to_discord ms posted₀ enum max_history sendOk).posted ∧
      (∀ sendOk' : MatchRecord σ → Bool,
        (post_matches_to_discord ms posted₀ enum max_history sendOk').posted
          = (post_matches_to_discord ms posted₀ enum max_history sendOk).posted) ∧
      ∀ (ms' : List (MatchRecord σ)) (enum' : List String) (mh' : Nat)
        (ok' : MatchRecord σ → Bool) (m' : MatchRecord σ),
        m'.match_id = m.match_id →
        PostEvent.send m' ∉
          (post_matches_to_discord ms'
            (post_matches_to_discord ms posted₀ enum max_history sendOk).posted
            enum' mh' ok').events := by
  have hne : (filterNewMatches ms posted₀).1 ≠ [] :=
    filterNewMatches_ne_nil ms posted₀ m hm hnew
  have hnemp : (filterNewMatches ms posted₀).1.isEmpty = false := by
    rcases h : (filterNewMatches ms posted₀).1 with _ | ⟨a, l⟩
    · exact absurd h hne
    · rfl
  have hsave : save_posted_matches enum max_history = enum := by
    rw [save_posted_matches]
    exact pySliceLast_of_le _ _ (hperm.length_eq ▸ hcard)
  have hposted : (post_matches_to_discord ms posted₀ enum max_history sendOk).posted
      = enum := by
    rw [post_matches_to_discord]
    simp only [hnemp, Bool.false_eq_true, if_false]
    exact hsave
  have hmem : m.match_id
      ∈ (post_matches_to_discord ms posted₀ enum max_history sendOk).posted := by
    rw [hposted, hperm.mem_iff]
    exact filterNewMatches_mem_posted ms posted₀ m hm
  refine ⟨?_, hmem, ?_, ?_⟩
  · refine ⟨sendLoop sendOk (filterNewMatches ms posted₀).1, ?_⟩
    rw [post_matches_to_discord]
    simp only [hnemp, Bool.false_eq_true, if_false]
  · intro sendOk'
    rw [hposted, post_matches_to_discord]
    simp only [hnemp, Bool.false_eq_true, if_false]
    exact hsave
  · intro ms' enum' mh' ok' m' hid habs
    rw [post_matches_to_discord] at habs
    by_cases hnew' : (filterNewMatches ms'
        (post_matches_to_discord ms posted₀ enum max_history sendOk).posted).1.isEmpty
    · rw [if_pos hnew'] at habs
      exact absurd habs (List.not_mem_nil _)
    · rw [if_neg hnew'] at habs
      rcases List.mem_cons.mp habs with heq | hsend
      · exact PostEvent.noConfusion heq
      · have h1 := (sendLoop_send_mem ok' _ m' hsend).1
        have h2 := filterNewMatches_not_posted ms'
          (post_matches_to_discord ms posted₀ enum max_history sendOk).posted m' h1
        rw [hid] at h2
        exact h2 hmem

/-- A one-match record for player `A`, payload `1`. -/
def soloRecordW : MatchRecord Nat :=
  { match_id := "m1"
    match_category := "NORMAL"
    game_mode := "solo"
    match_type := "official"
    is_custom := false
    map := "Erangel_Main"
    duration_seconds := 120
    duration_minutes := 2
    played_at := "t"
    all_players_stats := [("A", 1)] }

/-- C9 witness: the mark-before-publish theorem applied to one new match
against an empty ledger, with a *failing* send: the id is persisted and
the posted set is the same as with a succeeding send. -/
theorem post_marks_before_publish_witness :
    "m1" ∈ (post_matches_to_discord [soloRecordW] [] ["m1"] 200
        (fun _ => false)).posted ∧
      (post_matches_to_discord [soloRecordW] [] ["m1"] 200
          (fun _ => true)).posted
        = (post_matches_to_discord [soloRecordW] [] ["m1"] 200
            (fun _ => false)).posted := by
  have h := post_marks_before_publish [soloRecordW] [] ["m1"] 200
    (fun _ => false) soloRecordW (List.mem_singleton_self _)
    (List.not_mem_nil _) (by decide) (by decide)
  exact ⟨h.2.1, h.2.2.1 (fun _ => true)⟩

/-! ### C1 — one record per shared match, stats for the full roster -/

/-- A fetched record carries the id it was fetched for. -/
theorem get_match_details_match_id {σ : Type}
    (matchApi : String → Option (MatchApi σ)) (mid : String)
    (tracked : List String) (r : MatchRecord σ)
    (h : get_match_details matchApi mid tracked = some r) :
    r.match_id = mid := by
  rw [get_match_details] at h
  cases hapi : matchApi mid with
  | none => rw [hapi] at h; exact Option.noConfusion h
  | some d =>
    rw [hapi] at h
    injection h with h'
    rw [← h']

/-- Dict update at key `p` does not change the value at `q ≠ p`
(map branch of `setLastMatch`). -/
theorem lookup_map_update_ne (m : List (String × String)) (p v q : String)
    (hq : q ≠ p) :
    (m.map fun e => if e.1 == p then (p, v) else e).lookup q = m.lookup q := by
  induction m with
  | nil => rfl
  | cons kv rest ih =>
    rcases kv with ⟨k, b⟩
    rw [List.map_cons]
    by_cases hk : k = p
    · rw [if_pos (show (((k, b) : String × String).1 == p) = true from beq_iff_eq.mpr hk)]
      subst hk
      simp only [List.lookup, beq_eq_false_iff_ne.mpr hq]
      exact ih
    · rw [if_neg (show ¬((((k, b) : String × String).1 == p) = true) by
        simp only [beq_eq_false_iff_ne.mpr hk]; exact Bool.false_ne_true)]
      simp only [List.lookup]
      cases hqk : q == k
      · exact ih
      · rfl

/-- Appending a binding for `p` does not change the value at `q ≠ p`
(append branch of `setLastMatch`). -/
theorem lookup_append_single_ne (m : List (String × String)) (p v q : String)
    (hq : q ≠ p) :
    (m ++ [(p, v)]).lookup q = m.lookup q := by
  induction m with
  | nil =>
    simp only [List.nil_append, List.lookup, beq_eq_false_iff_ne.mpr hq]
  | cons kv rest ih =>
    rcases kv with ⟨k, b⟩
    simp only [List.cons_append, List.lookup]
    cases hqk : q == k
    · exact ih
    · rfl

/-- `setLastMatch` at player `p` preserves the last-seen id of `q ≠ p`. -/
theorem setLastMatch_lookup_ne (m : List (String × String)) (p v q : String)
    (hq : q ≠ p) :
    (setLastMatch m p v).lookup q = m.lookup q := by
  rw [setLastMatch]
  by_cases hany : m.any (fun e => e.1 == p)
  · rw [if_pos hany]
    exact lookup_map_update_ne m p v q hq
  · rw [if_neg hany]
    exact lookup_append_single_ne m p v q hq

/-- The invariant once the shared match `M` has been claimed this cycle:
`M` is in the per-cycle dedup set and the results hold exactly one record
for it — the canonical one. -/
def TriggeredInv {σ : Type} (M : String) (mdRec : MatchRecord σ)
    (st : TrackerState σ) : Prop :=
  M ∈ st.processed_matches_this_cycle ∧
    st.results.filter (fun r => r.match_id == M) = [mdRec]

/-- The invariant before `M` is claimed: `M` is not in the dedup set, no
result references it, and player `q`'s last-seen id is still the initial
one. -/
def UntriggeredInv {σ : Type} (M q : String) (v₀ : Option String)
    (st : TrackerState σ) : Prop :=
  M ∉ st.processed_matches_this_cycle ∧
    st.results.filter (fun r => r.match_id == M) = [] ∧
    st.last_match_ids.lookup q = v₀

/-- Once triggered, any further player's step preserves the invariant:
the dedup-set check stops a second fetch of `M`, and fetches of other
matches append records with other ids. -/
theorem step_preserves_TriggeredInv {σ : Type} (latest : String → Option String)
    (matchApi : String → Option (MatchApi σ)) (roster : List String)
    (M : String) (mdRec : MatchRecord σ) (st : TrackerState σ) (p : String)
    (hinv : TriggeredInv M mdRec st) :
    TriggeredInv M mdRec (get_latest_match latest matchApi st p roster) := by
  obtain ⟨hproc, hres⟩ := hinv
  unfold get_latest_match
  split
  · exact ⟨hproc, hres⟩
  case _ L _ =>
    split
    · exact ⟨hproc, hres⟩
    · split
      · exact ⟨hproc, hres⟩
      case _ hc _ =>
        have hLM : L ≠ M := by
          intro h
          exact hc (h ▸ List.elem_eq_true_of_mem hproc)
        split
        case _ md' hgd =>
          refine ⟨List.mem_append_left _ hproc, ?_⟩
          rw [List.filter_append, hres]
          have hid : md'.match_id = L := get_match_details_match_id _ _ _ _ hgd
          have : (md'.match_id == M) = false :=
            beq_eq_false_iff_ne.mpr (hid ▸ hLM)
          simp [List.filter_cons, this]
        · exact ⟨List.mem_append_left _ hproc, hres⟩

/-- Before `M` is claimed, a step of a player other than `q` either
leaves the untriggered invariant intact or claims `M` and establishes
the triggered invariant. -/
theorem step_of_ne_UntriggeredInv {σ : Type} (latest : String → Option String)
    (matchApi : String → Option (MatchApi σ)) (roster : List String)
    (M q : String) (v₀ : Option String) (mi : MatchApi σ)
    (hapi : matchApi M = some mi) (mdRec : MatchRecord σ)
    (hmd : get_match_details matchApi M roster = some mdRec)
    (st : TrackerState σ) (p : String) (hpq : p ≠ q)
    (hinv : UntriggeredInv M q v₀ st) :
    UntriggeredInv M q v₀ (get_latest_match latest matchApi st p roster) ∨
      TriggeredInv M mdRec (get_latest_match latest matchApi st p roster) := by
  obtain ⟨hproc, hres, hlook⟩ := hinv
  unfold get_latest_match
  split
  · exact Or.inl ⟨hproc, hres, hlook⟩
  case _ L _ =>
    split
    · exact Or.inl ⟨hproc, hres,
        (setLastMatch_lookup_ne _ _ _ _ (fun h => hpq h.symm)).trans hlook⟩
    · split
      · exact Or.inl ⟨hproc, hres, hlook⟩
      · by_cases hLM : L = M
        · subst hLM
          rw [show get_match_details matchApi L roster = some mdRec from hmd]
          refine Or.inr ⟨List.mem_append_right _ (List.mem_singleton_self _), ?_⟩
          rw [List.filter_append, hres]
          have hid : mdRec.match_id = L := get_match_details_match_id _ _ _ _ hmd
          simp [List.filter_cons, beq_iff_eq.mpr hid]
        · refine Or.inl ?_
          have hlook' :
              (setLastMatch st.last_match_ids p L).lookup q = v₀ :=
            (setLastMatch_lookup_ne _ _ _ _ (fun h => hpq h.symm)).trans hlook
          split
          case _ md' hgd =>
            refine ⟨?_, ?_, hlook'⟩
            · intro habs
              rcases List.mem_append.mp habs with h | h
              · exact hproc h
              · exact hLM (List.mem_singleton.mp h).symm
            · rw [List.filter_append, hres]
              have hid : md'.match_id = L := get_match_details_match_id _ _ _ _ hgd
              have : (md'.match_id == M) = false :=
                beq_eq_false_iff_ne.mpr (hid ▸ hLM)
              simp [List.filter_cons, this]
          · refine ⟨?_, hres, hlook'⟩
            intro habs
            rcases List.mem_append.mp habs with h | h
            · exact hproc h
            · exact hLM (List.mem_singleton.mp h).symm

/-- Player `q`'s own step from the untriggered state claims `M`: its
resolved id is `M`, the dedup set does not hold `M`, its last-seen id
differs from `M`, so the fetch runs and appends the canonical record. -/
theorem step_of_q_triggers {σ : Type} (latest : String → Option String)
    (matchApi : String → Option (MatchApi σ)) (roster : List String)
    (M q : String) (v₀ : Option String) (mi : MatchApi σ)
    (_hapi : matchApi M = some mi) (mdRec : MatchRecord σ)
    (hmd : get_match_details matchApi M roster = some mdRec)
    (st : TrackerState σ)
    (hlq : latest q = some M) (hv : v₀ ≠ some M)
    (hinv : UntriggeredInv M q v₀ st) :
    TriggeredInv M mdRec (get_latest_match latest matchApi st q roster) := by
  obtain ⟨hproc, hres, hlook⟩ := hinv
  unfold get_latest_match
  rw [hlq]
  dsimp only
  have hc : ¬(st.processed_matches_this_cycle.contains M = true) := by
    intro h
    exact hproc (by simpa using h)
  rw [if_neg hc]
  have hlast : ¬((st.last_match_ids.lookup q == some M) = true) := by
    intro h
    exact hv (hlook ▸ beq_iff_eq.mp h)
  rw [if_neg hlast]
  rw [show get_match_details matchApi M roster = some mdRec from hmd]
  refine ⟨List.mem_append_right _ (List.mem_singleton_self _), ?_⟩
  rw [List.filter_append, hres]
  have hid : mdRec.match_id = M := get_match_details_match_id _ _ _ _ hmd
  simp [List.filter_cons, beq_iff_eq.mpr hid]

/-- Folding any further players preserves the triggered invariant. -/
theorem foldl_preserves_TriggeredInv {σ : Type} (latest : String → Option String)
    (matchApi : String → Option (MatchApi σ)) (roster : List String)
    (M : String) (mdRec : MatchRecord σ) (l : List String)
    (st : TrackerState σ) (hinv : TriggeredInv M mdRec st) :
    TriggeredInv M mdRec
      (l.foldl (fun st p => get_latest_match latest matchApi st p roster) st) := by
  induction l generalizing st with
  | nil => exact hinv
  | cons p l ih =>
    exact ih _ (step_preserves_TriggeredInv latest matchApi roster M mdRec st p hinv)

/-- Folding players other than `q` keeps the untriggered invariant or
establishes the triggered one. -/
theorem foldl_of_ne_UntriggeredInv {σ : Type} (latest : String → Option String)
    (matchApi : String → Option (MatchApi σ)) (roster : List String)
    (M q : String) (v₀ : Option String) (mi : MatchApi σ)
    (hapi : matchApi M = some mi) (mdRec : MatchRecord σ)
    (hmd : get_match_details matchApi M roster = some mdRec)
    (l : List String) (hl : ∀ p ∈ l, p ≠ q) (st : TrackerState σ)
    (hinv : UntriggeredInv M q v₀ st) :
    UntriggeredInv M q v₀
        (l.foldl (fun st p => get_latest_match latest matchApi st p roster) st) ∨
      TriggeredInv M mdRec
        (l.foldl (fun st p => get_latest_match latest matchApi st p roster) st) := by
  induction l generalizing st with
  | nil => exact Or.inl hinv
  | cons p l ih =>
    rw [List.foldl_cons]
    rcases step_of_ne_UntriggeredInv latest matchApi roster M q v₀ mi hapi mdRec
        hmd st p (hl p (List.mem_cons_self p l)) hinv with h | h
    · exact ih (fun p' hp' => hl p' (List.mem_cons_of_mem _ hp')) _ h
    · exact Or.inr (foldl_preserves_TriggeredInv latest matchApi roster M mdRec l _ h)

/-- C1: in one polling cycle over a duplicate-free roster, if two
distinct tracked players both resolve to the same match id `M`, the
match-detail payload is available and holds both players' participant
stats, and at least one of the two still sees `M` as new (its last-seen
id differs), then the cycle's results hold *exactly one* record whose id
is `M` — and that record's player-stats mapping contains both players'
stats (the single fetch ran with the full tracked roster). -/
theorem cycle_single_record_for_shared_match {σ : Type}
    (latest : String → Option String) (matchApi : String → Option (MatchApi σ))
    (roster : List String) (last_ids : List (String × String))
    (p₁ p₂ M : String) (mi : MatchApi σ) (s₁ s₂ : σ)
    (hnodup : roster.Nodup) (hp₁ : p₁ ∈ roster) (hp₂ : p₂ ∈ roster)
    (_hne : p₁ ≠ p₂)
    (hl₁ : latest p₁ = some M) (hl₂ : latest p₂ = some M)
    (hapi : matchApi M = some mi)
    (hs₁ : find_player_stats mi.included p₁ = some s₁)
    (hs₂ : find_player_stats mi.included p₂ = some s₂)
    (htrig : last_ids.lookup p₁ ≠ some M ∨ last_ids.lookup p₂ ≠ some M) :
    ∃ rec : MatchRecord σ,
      (check_matches_cycle latest matchApi roster last_ids).results.filter
          (fun r => r.match_id == M) = [rec] ∧
        (p₁, s₁) ∈ rec.all_players_stats ∧ (p₂, s₂) ∈ rec.all_players_stats := by
  cases hmd : get_match_details matchApi M roster with
  | none =>
    rw [get_match_details, hapi] at hmd
    exact Option.noConfusion hmd
  | some mdRec =>
    have hstats : mdRec.all_players_stats
        = roster.filterMap fun p =>
            (find_player_stats mi.included p).map (fun s => (p, s)) := by
      rw [get_match_details, hapi] at hmd
      injection hmd with h'
      rw [← h']
    refine ⟨mdRec, ?_, ?_, ?_⟩
    · -- pick the player who still sees M as new and split the roster there
      have main : ∀ q : String, q ∈ roster → latest q = some M →
          last_ids.lookup q ≠ some M →
          TriggeredInv M mdRec (check_matches_cycle latest matchApi roster last_ids) := by
        intro q hq hlq hv
        obtain ⟨l₁, l₂, hsplit⟩ := List.append_of_mem hq
        subst hsplit
        have hl₁q : ∀ p ∈ l₁, p ≠ q := by
          intro p hp
          have hdisj := List.disjoint_of_nodup_append hnodup
          intro rfl'
          exact hdisj hp (rfl' ▸ List.mem_cons_self _ _)
        rw [check_matches_cycle, List.foldl_append, List.foldl_cons]
        have hinv₀ : UntriggeredInv M q (last_ids.lookup q)
            ({ results := []
               last_match_ids := last_ids
               processed_matches_this_cycle := [] } : TrackerState σ) :=
          ⟨List.not_mem_nil M, rfl, rfl⟩
        rcases foldl_of_ne_UntriggeredInv latest matchApi _ M q
            (last_ids.lookup q) mi hapi mdRec hmd l₁ hl₁q _ hinv₀ with h | h
        · exact foldl_preserves_TriggeredInv latest matchApi _ M mdRec l₂ _
            (step_of_q_triggers latest matchApi _ M q (last_ids.lookup q)
              mi hapi mdRec hmd _ hlq hv h)
        · exact foldl_preserves_TriggeredInv latest matchApi _ M mdRec l₂ _
            (step_preserves_TriggeredInv latest matchApi _ M mdRec _ q h)
      rcases htrig with hv | hv
      · exact (main p₁ hp₁ hl₁ hv).2
      · exact (main p₂ hp₂ hl₂ hv).2
    · rw [hstats]
      exact List.mem_filterMap.mpr ⟨p₁, hp₁, by rw [hs₁]; rfl⟩
    · rw [hstats]
      exact List.mem_filterMap.mpr ⟨p₂, hp₂, by rw [hs₂]; rfl⟩

/-- A two-participant match payload: players `A` (payload 1) and `B`
(payload 2) in one squad/official match. -/
def sharedMatchApiW : MatchApi Nat :=
  { gameMode := "squad"
    matchType := "official"
    isCustomMatch := false
    mapName := "Erangel_Main"
    duration := 1200
    createdAt := "t"
    included :=
      [{ itemType := "participant", name := "A", stats := 1 },
       { itemType := "participant", name := "B", stats := 2 }] }

/-- C1 witness: the dedup theorem applied to the roster `[A, B]`, both
players resolving to match `m1`, whose payload holds both participants:
the cycle yields one record for `m1` containing both stats. -/
theorem cycle_single_record_for_shared_match_witness :
    ∃ rec : MatchRecord Nat,
      (check_matches_cycle (fun _ => some "m1") (fun _ => some sharedMatchApiW)
          ["A", "B"] []).results.filter (fun r => r.match_id == "m1") = [rec] ∧
        ("A", 1) ∈ rec.all_players_stats ∧ ("B", 2) ∈ rec.all_players_stats :=
  cycle_single_record_for_shared_match (fun _ => some "m1")
    (fun _ => some sharedMatchApiW) ["A", "B"] [] "A" "B" "m1"
    sharedMatchApiW 1 2 (by decide) (by decide) (by decide) (by decide)
    rfl rfl rfl (by decide) (by decide) (Or.inl (by decide))
